import Mathlib

/-!
Verification of the CRUD record stores of the Big-Data-Analytics-Lab
repository.  Three variants are embedded:

* `Redis` — the Redis-backed user store of `BDA Course Assigment 1/crud.py`
  (class `AdobeSDFS` plus the module-level CRUD functions).  The Redis hash
  under `collection_key` is modelled as an association list from record id
  to record whose list order stands for the backend's iteration order: the
  order `hgetall` happens to present.  The stored JSON values are far over
  the listpack limits, so the hash is hashtable-encoded and that order
  carries no insertion-order guarantee; every client operation is a linear
  scan over `hgetall` and hence parametric in it.
* `FsStore` — the file-backed store of `BDA Course Assigment 1/main.py`
  (class `AdobeSDFS` over a storage directory).  The filesystem is
  modelled as an association list from path to file data, and the
  in-memory index `self.files` as an insertion-ordered association list,
  matching Python dict semantics.
* `Lab3` — the MongoDB-backed user store of `lab3/crud.py`; the collection
  is modelled as a list of documents in the collection's natural order,
  which MongoDB does not guarantee to be insertion order; the client
  operations are scans parametric in that order.

Timestamps (`datetime.utcnow().isoformat()` / `datetime.now()`) are
modelled as an abstract clock value of type `Nat` passed explicitly to
each operation; generated ids (`uuid.uuid4().hex`) are modelled as an
explicitly passed string.
-/

namespace Dict

/-- Lookup of the first entry with the given key (Python `d.get(k)`,
Redis `hget`). -/
def dget {α : Type} : List (String × α) → String → Option α
  | [], _ => none
  | p :: rest, k => if p.1 = k then some p.2 else dget rest k

/-- Replace-in-place when the key is present, append otherwise (Python
`d[k] = v` on a dict; Redis `hset`, which rewrites an existing field at
its place in the iteration order — for a new field the append here is one
choice of the backend's arbitrary placement). -/
def dset {α : Type} : List (String × α) → String → α → List (String × α)
  | [], k, v => [(k, v)]
  | p :: rest, k, v => if p.1 = k then (k, v) :: rest else p :: dset rest k v

/-- Remove the entry with the given key when present (Python `del d[k]`
under an `in` guard, Redis `hdel`). -/
def ddel {α : Type} : List (String × α) → String → List (String × α)
  | [], _ => []
  | p :: rest, k => if p.1 = k then rest else p :: ddel rest k

/-- The keys of the dictionary, in order. -/
def keys {α : Type} (d : List (String × α)) : List String :=
  d.map Prod.fst

end Dict

namespace Redis

open Dict

/-- The Adobe XDM record built by `AdobeSDFS._create_adobe_xdm_record`.
`email` is `xdm:identityMap.email[0].id`; `firstName`, `lastName`, `age`,
`phone` and `address` live under `xdm:person` (with `address` the nested
`fullAddress`); the three timestamps are `xdm:timestamp`, `xdm:createdAt`
and `xdm:updatedAt` (the first two are never read back, we keep
`createdAt` and `updatedAt`). -/
structure XdmRecord where
  id : String
  email : String
  firstName : String
  lastName : String
  age : Int
  phone : String
  address : String
  createdAt : Nat
  updatedAt : Nat
deriving DecidableEq

/-- The Redis hash at `collection_key`: record id to record, in the
backend's iteration order — the order `hgetall` presents, which for a
hashtable-encoded hash carries no insertion-order guarantee. -/
abbrev Store := List (String × XdmRecord)

/-- Helper for `pySplit`: walk the characters, `cur` holding the current
word reversed. -/
def pySplitAux : List Char → List Char → List String
  | [], cur => if cur.isEmpty then [] else [String.mk cur.reverse]
  | c :: cs, cur =>
    if c.isWhitespace then
      (if cur.isEmpty then [] else [String.mk cur.reverse]) ++ pySplitAux cs []
    else
      pySplitAux cs (c :: cur)

/-- Python `name.split()` (no argument): split on runs of whitespace,
dropping empty pieces. -/
def pySplit (s : String) : List String :=
  pySplitAux s.data []

/-- Python `s.strip()`: drop leading and trailing whitespace. -/
def pyStrip (s : String) : String :=
  String.mk (((s.data.dropWhile Char.isWhitespace).reverse.dropWhile
    Char.isWhitespace).reverse)

/-- `name_parts[0] if name_parts else ""` as used by `update_by_email`. -/
def firstNameOfParts (parts : List String) : String :=
  parts.headD ""

/-- `name_parts[-1] if len(name_parts) > 1 else ""`. -/
def lastNameOfParts (parts : List String) : String :=
  if parts.length > 1 then parts.getLastD "" else ""

/-- `AdobeSDFS._create_adobe_xdm_record` (the `@id` is passed in for the
generated `adobe_<uuid4-hex>` value, the clock value `t` for
`datetime.utcnow()`).  The source computes the first name as
`data["name"].split()[0] if data["name"] else ""`: for a nonempty
whitespace-only name the source raises `IndexError`, which the only
caller `create_user` catches; that branch is excluded in `create_user`
below, so here `headD` is only evaluated on the agreeing cases. -/
def createXdmRecord (newId : String) (t : Nat) (name email : String)
    (age : Int) (phone address : String) : XdmRecord :=
  { id := newId
    email := email
    firstName := firstNameOfParts (pySplit name)
    lastName := lastNameOfParts (pySplit name)
    age := age
    phone := phone
    address := address
    createdAt := t
    updatedAt := t }

/-- `AdobeSDFS.create`: build the XDM record and `hset` it under its id
(the best-effort POST to the AEP simulator has no effect on the store). -/
def create (s : Store) (newId : String) (t : Nat) (name email : String)
    (age : Int) (phone address : String) : String × Store :=
  (newId, dset s newId (createXdmRecord newId t name email age phone address))

/-- `AdobeSDFS.find_all`: the values of the hash, in the backend's
iteration order. -/
def find_all (s : Store) : List XdmRecord :=
  s.map Prod.snd

/-- `AdobeSDFS.find_by_email`: linear scan of `find_all`, first record
whose identity-map email equals the argument. -/
def find_by_email (s : Store) (email : String) : Option XdmRecord :=
  (find_all s).find? (fun r => r.email = email)

/-- The partial update dictionary passed to `update_by_email`: a field is
`none` when absent from the dict. -/
structure UpdateData where
  name : Option String
  age : Option Int
  phone : Option String
  address : Option String

/-- The in-place mutation `update_by_email` performs on the matched
record before writing it back: optional name split into first/last,
optional age, phone, address, and `xdm:updatedAt` refreshed to `t`. -/
def applyUpdate (r : XdmRecord) (u : UpdateData) (t : Nat) : XdmRecord :=
  let r1 := match u.name with
    | some nm => { r with firstName := firstNameOfParts (pySplit nm),
                          lastName := lastNameOfParts (pySplit nm) }
    | none => r
  let r2 := match u.age with
    | some a => { r1 with age := a }
    | none => r1
  let r3 := match u.phone with
    | some p => { r2 with phone := p }
    | none => r2
  let r4 := match u.address with
    | some ad => { r3 with address := ad }
    | none => r3
  { r4 with updatedAt := t }

/-- `AdobeSDFS.update_by_email`: scan the records in order, mutate the
first one whose email matches, `hset` it back under its unchanged id
(replace in place) and return 1; return 0 when no record matches. -/
def update_by_email : Store → Nat → String → UpdateData → Nat × Store
  | [], _, _, _ => (0, [])
  | p :: rest, t, email, u =>
    if p.2.email = email then
      (1, (p.1, applyUpdate p.2 u t) :: rest)
    else
      let r := update_by_email rest t email u
      (r.1, p :: r.2)

/-- `AdobeSDFS.delete_by_email`: scan the records in order, `hdel` the
first one whose email matches and return 1; return 0 when none does. -/
def delete_by_email : Store → String → Nat × Store
  | [], _ => (0, [])
  | p :: rest, email =>
    if p.2.email = email then
      (1, rest)
    else
      let r := delete_by_email rest email
      (r.1, p :: r.2)

/-- `AdobeSDFS.delete_all`: read `hlen`, delete the whole hash key,
return the count. -/
def delete_all (s : Store) : Nat × Store :=
  (s.length, [])

/-- `AdobeSDFS.count`: `hlen` of the hash. -/
def count (s : Store) : Nat :=
  s.length

/-- `create_user`: reject when a record with the email already exists,
otherwise store the new record via `AdobeSDFS.create` and return its id.
`phone or ""` / `address or ""` turn an absent argument into `""`.
The branch where the supplied name is nonempty but consists only of
whitespace models the `IndexError` that `data["name"].split()[0]` raises
in `_create_adobe_xdm_record`, caught by `create_user`'s `except`, which
returns `None` with nothing stored. -/
def create_user (s : Store) (newId : String) (t : Nat) (name email : String)
    (age : Int) (phone address : Option String) : Option String × Store :=
  match find_by_email s email with
  | some _ => (none, s)
  | none =>
    if name ≠ "" ∧ pySplit name = [] then
      (none, s)
    else
      let r := create s newId t name email age (phone.getD "") (address.getD "")
      (some r.1, r.2)

/-- The readable `user_dict` that `get_user_by_email` (and
`get_all_users`) extracts from a raw XDM record: in particular the name
is reassembled as `f"{firstName} {lastName}".strip()`. -/
structure UserView where
  adobe_id : String
  email : String
  name : String
  age : Int
  phone : String
  address : String
  created_at : Nat
  updated_at : Nat
deriving DecidableEq

/-- The projection `get_user_by_email` performs on a found record. -/
def extractUser (email : String) (r : XdmRecord) : UserView :=
  { adobe_id := r.id
    email := email
    name := pyStrip (r.firstName ++ " " ++ r.lastName)
    age := r.age
    phone := r.phone
    address := r.address
    created_at := r.createdAt
    updated_at := r.updatedAt }

/-- `get_user_by_email` returns the raw record found by
`find_by_email` (printing its `UserView`). -/
def get_user_by_email (s : Store) (email : String) : Option XdmRecord :=
  find_by_email s email

end Redis

namespace FsStore

open Dict

/-- Data stored in a file on disk.  `truncated` marks a destination file
that a failed `shutil.copy2` left behind half written. -/
inductive FileData where
  | complete (content : String)
  | truncated (content : String)
deriving DecidableEq

/-- The filesystem: path to file data, insertion ordered. -/
abbrev Fs := List (String × FileData)

/-- The per-file info dict built by `AdobeSDFS.create`; the
`updated_at` key exists only once `update_metadata` has run, hence
`Option`. -/
structure FileInfo where
  file_id : String
  original_name : String
  stored_path : String
  size_bytes : Nat
  uploaded_at : Nat
  metadata : List (String × String)
  updated_at : Option Nat
deriving DecidableEq

/-- The store: the configured storage directory and the in-memory index
`self.files` (a Python dict: file id to info, insertion ordered). -/
structure SDFS where
  storage_path : String
  files : List (String × FileInfo)

/-- `AdobeSDFS.__init__`: remember the storage path and start with an
empty index; whatever the storage directory already holds on disk is
never read. -/
def init (storage_path : String) : SDFS :=
  { storage_path := storage_path, files := [] }

/-- `Path(p).name`: the last path component, the part after the final
slash. -/
def baseName (p : String) : String :=
  String.mk ((p.data.reverse.takeWhile (fun c => c ≠ '/')).reverse)

/-- Python dict merge `{**a, **b}`: keys of `a` keep their position with
`b`'s values overriding, new keys of `b` are appended in order. -/
def dmerge (a b : List (String × String)) : List (String × String) :=
  b.foldl (fun acc p => dset acc p.1 p.2) a

/-- The byte content of a file, whether fully or partially written. -/
def contentOf : FileData → String
  | FileData.complete c => c
  | FileData.truncated c => c

/-- `AdobeSDFS.create`: copy the source file to
`storage_path/<id>_<name>` and record it in the index.  The generated id
and the clock are passed in; `copyOk = false` models `shutil.copy2`
failing midway, in which case the caught exception leaves the index
unchanged and a truncated destination file on disk.  A missing source
raises `FileNotFoundError`, also caught, changing nothing. -/
def create (st : SDFS) (fs : Fs) (newId : String) (t : Nat)
    (file_path : String) (metadata : List (String × String))
    (copyOk : Bool) : Option String × SDFS × Fs :=
  match dget fs file_path with
  | none => (none, st, fs)
  | some d =>
    let content := contentOf d
    let dest := st.storage_path ++ "/" ++ newId ++ "_" ++ baseName file_path
    if copyOk then
      let info : FileInfo :=
        { file_id := newId
          original_name := baseName file_path
          stored_path := dest
          size_bytes := content.length
          uploaded_at := t
          metadata := metadata
          updated_at := none }
      (some newId,
       { st with files := dset st.files newId info },
       dset fs dest (FileData.complete content))
    else
      (none, st, dset fs dest (FileData.truncated content))

/-- `AdobeSDFS.read_all`: `list(self.files.values())`. -/
def read_all (st : SDFS) : List FileInfo :=
  st.files.map Prod.snd

/-- `AdobeSDFS.read_by_id`: `self.files.get(file_id)`. -/
def read_by_id (st : SDFS) (file_id : String) : Option FileInfo :=
  dget st.files file_id

/-- `AdobeSDFS.download`: absent id returns `False`; otherwise copy the
stored file to the destination (a missing stored file makes
`shutil.copy2` raise, caught, returning `False`). -/
def download (st : SDFS) (fs : Fs) (file_id dest_path : String) :
    Bool × Fs :=
  match dget st.files file_id with
  | none => (false, fs)
  | some info =>
    match dget fs info.stored_path with
    | none => (false, fs)
    | some d => (true, dset fs dest_path d)

/-- `AdobeSDFS.update_metadata`: absent id returns `False`; otherwise
merge the new metadata over the current one and set `updated_at`. -/
def update_metadata (st : SDFS) (file_id : String)
    (new_metadata : List (String × String)) (t : Nat) : Bool × SDFS :=
  match dget st.files file_id with
  | none => (false, st)
  | some info =>
    let info' := { info with metadata := dmerge info.metadata new_metadata,
                             updated_at := some t }
    (true, { st with files := dset st.files file_id info' })

/-- `AdobeSDFS.delete`: absent id returns `False`; otherwise unlink the
stored file when it exists and drop the index entry. -/
def delete (st : SDFS) (fs : Fs) (file_id : String) : Bool × SDFS × Fs :=
  match dget st.files file_id with
  | none => (false, st, fs)
  | some info =>
    (true, { st with files := ddel st.files file_id },
     ddel fs info.stored_path)

/-- One iteration of the `delete_all` loop: `self.delete(file_id)` on the
current state (the returned boolean is dropped by the loop). -/
def deleteFold (acc : SDFS × Fs) (fid : String) : SDFS × Fs :=
  let d := delete acc.1 acc.2 fid
  (d.2.1, d.2.2)

/-- `AdobeSDFS.delete_all`: snapshot the count, then `delete` every id in
`list(self.files.keys())`, returning the snapshot. -/
def delete_all (st : SDFS) (fs : Fs) : Nat × SDFS × Fs :=
  let c := st.files.length
  let r := (keys st.files).foldl deleteFold (st, fs)
  (c, r.1, r.2)

/-- `AdobeSDFS.count`: `len(self.files)`. -/
def count (st : SDFS) : Nat :=
  st.files.length

end FsStore

namespace Lab3

/-- A user document as inserted by `create_user` in `lab3/crud.py` (the
Mongo `_id` plays no role in any operation and is omitted). -/
structure MUser where
  name : String
  email : String
  age : Int
  phone : Option String
  address : Option String
  created_at : Nat
  updated_at : Nat
deriving DecidableEq

/-- The Mongo collection, in natural order (which MongoDB does not
guarantee to be insertion order). -/
abbrev Coll := List MUser

/-- `create_user`: `insert_one` appends the document; there is no
uniqueness check of any kind. -/
def create_user (c : Coll) (t : Nat) (name email : String) (age : Int)
    (phone address : Option String) : Coll :=
  c ++ [{ name := name, email := email, age := age, phone := phone,
          address := address, created_at := t, updated_at := t }]

/-- `get_all_users`: `list(collection.find())`, in the collection's
natural order. -/
def get_all_users (c : Coll) : List MUser :=
  c

/-- `get_user_by_email`: `find_one({"email": email})`, the first document
with that email. -/
def get_user_by_email (c : Coll) (email : String) : Option MUser :=
  c.find? (fun u => u.email = email)

/-- The partial update dict for `update_user`. -/
structure UpdData where
  name : Option String
  age : Option Int
  phone : Option String
  address : Option String

/-- The effect of `$set: {**updated_data, "updated_at": now}` on a
document. -/
def applyUpd (u : MUser) (d : UpdData) (t : Nat) : MUser :=
  { u with
    name := d.name.getD u.name
    age := d.age.getD u.age
    phone := match d.phone with | some p => some p | none => u.phone
    address := match d.address with | some a => some a | none => u.address
    updated_at := t }

/-- `update_user`: `update_one` applies the `$set` to the first document
matching the email; `modified_count` is 1 only when the document actually
changed, 0 when nothing matched or the `$set` was a no-op. -/
def update_user : Coll → Nat → String → UpdData → Nat × Coll
  | [], _, _, _ => (0, [])
  | u :: rest, t, email, d =>
    if u.email = email then
      let u' := applyUpd u d t
      (if u' = u then 0 else 1, u' :: rest)
    else
      let r := update_user rest t email d
      (r.1, u :: r.2)

/-- `delete_user`: `delete_one({"email": email})` removes the first
matching document; `deleted_count` is 1 or 0. -/
def delete_user : Coll → String → Nat × Coll
  | [], _ => (0, [])
  | u :: rest, email =>
    if u.email = email then
      (1, rest)
    else
      let r := delete_user rest email
      (r.1, u :: r.2)

/-- `delete_all_users`: `delete_many({})`. -/
def delete_all_users (c : Coll) : Nat × Coll :=
  (c.length, [])

/-- `get_stats`: `count_documents({})`. -/
def get_stats (c : Coll) : Nat :=
  c.length

end Lab3

namespace Redis

open Dict

/-- One menu-level operation of the Redis-backed application. -/
inductive Op where
  | opCreate (newId name email : String) (age : Int)
             (phone address : Option String)
  | opUpdate (email : String) (u : UpdateData)
  | opDelete (email : String)
  | opDeleteAll

/-- Running one operation at clock value `t`. -/
def step (s : Store) (t : Nat) : Op → Store
  | Op.opCreate newId name email age phone address =>
    (create_user s newId t name email age phone address).2
  | Op.opUpdate email u => (update_by_email s t email u).2
  | Op.opDelete email => (delete_by_email s email).2
  | Op.opDeleteAll => (delete_all s).2

/-- Running a timed sequence of operations. -/
def run : Store → List (Nat × Op) → Store
  | s, [] => s
  | s, p :: tr => run (step s p.1 p.2) tr

/-- All records currently have `updatedAt ≤ B`. -/
def UpdBound (s : Store) (B : Nat) : Prop :=
  ∀ p ∈ s, (Prod.snd p).updatedAt ≤ B

/-- The clock values of a trace are non-decreasing and start no earlier
than `B`. -/
def TimesChain : Nat → List (Nat × Op) → Prop
  | _, [] => True
  | B, p :: tr => B ≤ p.1 ∧ TimesChain p.1 tr

/-- The dictionary invariant of the Redis hash: record ids are distinct. -/
def NodupKeys (s : Store) : Prop :=
  (Dict.keys s).Nodup

/-- How many live records carry the given email. -/
def emailCount (s : Store) (em : String) : Nat :=
  ((find_all s).filter (fun r => r.email = em)).length

end Redis

namespace Lab3

/-- How many documents of the collection carry the given email. -/
def emailCount (c : Coll) (em : String) : Nat :=
  (c.filter (fun u => u.email = em)).length

end Lab3

namespace Dict

theorem dget_dset {α : Type} (d : List (String × α)) (j i : String) (v : α) :
    dget (dset d j v) i = if i = j then some v else dget d i := by
  induction d with
  | nil =>
    by_cases h : i = j
    · simp [dset, dget, h]
    · have h' : ¬ j = i := fun he => h he.symm
      simp [dset, dget, h, h']
  | cons p rest ih =>
    by_cases hp : p.1 = j
    · by_cases h : i = j
      · simp [dset, dget, hp, h]
      · have h' : ¬ j = i := fun he => h he.symm
        have hpi : ¬ p.1 = i := fun he => h' (hp ▸ he)
        simp [dset, dget, hp, h, h', hpi]
    · by_cases h : p.1 = i
      · have hij : ¬ i = j := fun he => hp (h.trans he)
        simp [dset, dget, hp, h, hij]
      · simp [dset, dget, hp, h, ih]

theorem keys_dset {α : Type} (d : List (String × α)) (j : String) (v : α) :
    keys (dset d j v) = if j ∈ keys d then keys d else keys d ++ [j] := by
  induction d with
  | nil => simp [dset, keys]
  | cons p rest ih =>
    by_cases hp : p.1 = j
    · simp [dset, keys, hp]
    · have hjp : ¬ j = p.1 := fun he => hp he.symm
      by_cases hm : j ∈ keys rest
      · have h1 : keys (dset rest j v) = keys rest := by simp [hm] at ih; exact ih
        have h2 : keys (dset (p :: rest) j v) = p.1 :: keys (dset rest j v) := by
          simp [dset, keys, hp]
        have hmem : j ∈ keys (p :: rest) := by simp [keys] at hm ⊢; exact Or.inr hm
        rw [h2, h1, if_pos hmem]
        simp [keys]
      · have h1 : keys (dset rest j v) = keys rest ++ [j] := by simp [hm] at ih; exact ih
        have h2 : keys (dset (p :: rest) j v) = p.1 :: keys (dset rest j v) := by
          simp [dset, keys, hp]
        have hmem : j ∉ keys (p :: rest) := by
          simp [keys] at hm ⊢; exact ⟨hjp, hm⟩
        rw [h2, h1, if_neg hmem]
        simp [keys]

theorem length_dset {α : Type} (d : List (String × α)) (j : String) (v : α) :
    (dset d j v).length = if j ∈ keys d then d.length else d.length + 1 := by
  have h := keys_dset d j v
  by_cases hm : j ∈ keys d
  · simp [hm] at h
    have := congrArg List.length h
    simp [keys] at this
    simpa [hm] using this
  · simp [hm] at h
    have := congrArg List.length h
    simp [keys] at this
    simpa [hm] using this

theorem keys_nil {α : Type} : keys ([] : List (String × α)) = [] := rfl

theorem keys_cons {α : Type} (p : String × α) (rest : List (String × α)) :
    keys (p :: rest) = p.1 :: keys rest := rfl

theorem mem_keys_of_dget {α : Type} {d : List (String × α)} {i : String} {v : α}
    (h : dget d i = some v) : i ∈ keys d := by
  induction d with
  | nil => simp [dget] at h
  | cons p rest ih =>
    rw [keys_cons]
    by_cases hp : p.1 = i
    · exact hp ▸ List.mem_cons_self p.1 (keys rest)
    · simp [dget, hp] at h
      exact List.mem_cons_of_mem p.1 (ih h)

theorem dget_eq_none_of_not_mem {α : Type} {d : List (String × α)} {i : String}
    (h : i ∉ keys d) : dget d i = none := by
  induction d with
  | nil => rfl
  | cons p rest ih =>
    rw [keys_cons, List.mem_cons] at h
    push_neg at h
    have hne : ¬ p.1 = i := fun he => h.1 he.symm
    simp [dget, hne, ih h.2]

theorem dset_append_of_not_mem {α : Type} {d : List (String × α)} {j : String}
    (v : α) (h : j ∉ keys d) : dset d j v = d ++ [(j, v)] := by
  induction d with
  | nil => rfl
  | cons p rest ih =>
    rw [keys_cons, List.mem_cons] at h
    push_neg at h
    have hne : ¬ p.1 = j := fun he => h.1 he.symm
    simp [dset, hne, ih h.2]

theorem ddel_length_of_mem {α : Type} {d : List (String × α)} {i : String}
    (h : i ∈ keys d) : (ddel d i).length + 1 = d.length := by
  induction d with
  | nil => simp [keys] at h
  | cons p rest ih =>
    by_cases hp : p.1 = i
    · simp [ddel, hp]
    · rw [keys_cons, List.mem_cons] at h
      have : i ∈ keys rest := h.resolve_left (fun he => hp he.symm)
      simp [ddel, hp, ih this]

theorem ddel_sublist {α : Type} (d : List (String × α)) (i : String) :
    (ddel d i).Sublist d := by
  induction d with
  | nil => simp [ddel]
  | cons p rest ih =>
    by_cases hp : p.1 = i
    · rw [ddel, if_pos hp]
      exact List.sublist_cons_self p rest
    · rw [ddel, if_neg hp]
      exact List.Sublist.cons₂ p ih

theorem dget_ddel_self_of_nodup {α : Type} {d : List (String × α)} {i : String}
    (h : (keys d).Nodup) : dget (ddel d i) i = none := by
  induction d with
  | nil => rfl
  | cons p rest ih =>
    rw [keys_cons, List.nodup_cons] at h
    by_cases hp : p.1 = i
    · subst hp
      rw [ddel, if_pos rfl]
      exact dget_eq_none_of_not_mem h.1
    · simp [ddel, dget, hp, ih h.2]

theorem mem_of_mem_ddel {α : Type} {d : List (String × α)} {i : String}
    {q : String × α} (h : q ∈ ddel d i) : q ∈ d :=
  (ddel_sublist d i).mem h

theorem mem_dset {α : Type} {d : List (String × α)} {j : String} {v : α}
    {q : String × α} (h : q ∈ dset d j v) : q ∈ d ∨ q = (j, v) := by
  induction d with
  | nil => simp [dset] at h; exact Or.inr h
  | cons p rest ih =>
    by_cases hp : p.1 = j
    · simp [dset, hp] at h
      rcases h with h | h
      · exact Or.inr h
      · exact Or.inl (List.mem_cons_of_mem p h)
    · simp [dset, hp] at h
      rcases h with h | h
      · exact Or.inl (by simp [h])
      · rcases ih h with h' | h'
        · exact Or.inl (List.mem_cons_of_mem p h')
        · exact Or.inr h'

end Dict

namespace Redis

open Dict

theorem email_applyUpdate (r : XdmRecord) (u : UpdateData) (t : Nat) :
    (applyUpdate r u t).email = r.email := by
  rcases u with ⟨un, ua, up, uad⟩
  cases un <;> cases ua <;> cases up <;> cases uad <;> simp [applyUpdate]

theorem id_applyUpdate (r : XdmRecord) (u : UpdateData) (t : Nat) :
    (applyUpdate r u t).id = r.id := by
  rcases u with ⟨un, ua, up, uad⟩
  cases un <;> cases ua <;> cases up <;> cases uad <;> simp [applyUpdate]

theorem updatedAt_applyUpdate (r : XdmRecord) (u : UpdateData) (t : Nat) :
    (applyUpdate r u t).updatedAt = t := by
  rcases u with ⟨un, ua, up, uad⟩
  cases un <;> cases ua <;> cases up <;> cases uad <;> simp [applyUpdate]

theorem age_applyUpdate {r : XdmRecord} {u : UpdateData} {t : Nat} {a : Int}
    (h : u.age = some a) : (applyUpdate r u t).age = a := by
  rcases u with ⟨un, ua, up, uad⟩
  cases ua <;> simp_all
  cases un <;> cases up <;> cases uad <;> simp [applyUpdate]

theorem phone_applyUpdate {r : XdmRecord} {u : UpdateData} {t : Nat} {p : String}
    (h : u.phone = some p) : (applyUpdate r u t).phone = p := by
  rcases u with ⟨un, ua, up, uad⟩
  cases up <;> simp_all
  cases un <;> cases ua <;> cases uad <;> simp [applyUpdate]

theorem address_applyUpdate {r : XdmRecord} {u : UpdateData} {t : Nat} {ad : String}
    (h : u.address = some ad) : (applyUpdate r u t).address = ad := by
  rcases u with ⟨un, ua, up, uad⟩
  cases uad <;> simp_all
  cases un <;> cases ua <;> cases up <;> simp [applyUpdate]

theorem name_applyUpdate {r : XdmRecord} {u : UpdateData} {t : Nat} {nm : String}
    (h : u.name = some nm) :
    (applyUpdate r u t).firstName = firstNameOfParts (pySplit nm) ∧
    (applyUpdate r u t).lastName = lastNameOfParts (pySplit nm) := by
  rcases u with ⟨un, ua, up, uad⟩
  cases un <;> simp_all
  cases ua <;> cases up <;> cases uad <;> simp [applyUpdate]

theorem find_by_email_nil (em : String) : find_by_email [] em = none := rfl

theorem find_by_email_cons (p : String × XdmRecord) (rest : Store) (em : String) :
    find_by_email (p :: rest) em =
      if p.2.email = em then some p.2 else find_by_email rest em := by
  by_cases h : p.2.email = em <;> simp [find_by_email, find_all, h]

theorem emailCount_nil (em : String) : emailCount [] em = 0 := rfl

theorem emailCount_cons (p : String × XdmRecord) (rest : Store) (em : String) :
    emailCount (p :: rest) em =
      (if p.2.email = em then 1 else 0) + emailCount rest em := by
  by_cases h : p.2.email = em <;>
    simp [emailCount, find_all, List.filter, h, Nat.add_comm]

theorem find_by_email_none_iff (s : Store) (em : String) :
    find_by_email s em = none ↔ emailCount s em = 0 := by
  induction s with
  | nil => simp [find_by_email_nil, emailCount_nil]
  | cons p rest ih =>
    rw [find_by_email_cons, emailCount_cons]
    by_cases h : p.2.email = em <;> simp [h, ih]

theorem update_by_email_not_found (s : Store) (t : Nat) (em : String)
    (u : UpdateData) (h : find_by_email s em = none) :
    update_by_email s t em u = (0, s) := by
  induction s with
  | nil => rfl
  | cons p rest ih =>
    rw [find_by_email_cons] at h
    by_cases hp : p.2.email = em
    · simp [hp] at h
    · simp [hp] at h
      simp [update_by_email, hp, ih h]

theorem update_by_email_found (s : Store) (t : Nat) (em : String)
    (u : UpdateData) (r : XdmRecord) (h : find_by_email s em = some r) :
    (update_by_email s t em u).1 = 1 ∧
    find_by_email (update_by_email s t em u).2 em = some (applyUpdate r u t) := by
  induction s with
  | nil => simp [find_by_email_nil] at h
  | cons p rest ih =>
    rw [find_by_email_cons] at h
    by_cases hp : p.2.email = em
    · simp [hp] at h
      subst h
      constructor
      · simp [update_by_email, hp]
      · rw [update_by_email]
        simp only [hp, if_pos]
        rw [find_by_email_cons]
        simp [email_applyUpdate, hp]
    · simp [hp] at h
      have := ih h
      constructor
      · simp [update_by_email, hp, this.1]
      · rw [update_by_email]
        simp only [hp, if_neg, not_false_iff]
        rw [find_by_email_cons]
        simp [hp, this.2]

theorem update_by_email_le_one (s : Store) (t : Nat) (em : String)
    (u : UpdateData) : (update_by_email s t em u).1 ≤ 1 := by
  induction s with
  | nil => simp [update_by_email]
  | cons p rest ih =>
    by_cases hp : p.2.email = em <;> simp [update_by_email, hp, ih]

theorem keys_update_by_email (s : Store) (t : Nat) (em : String)
    (u : UpdateData) : keys (update_by_email s t em u).2 = keys s := by
  induction s with
  | nil => rfl
  | cons p rest ih =>
    by_cases hp : p.2.email = em <;>
      simp [update_by_email, hp, keys_cons, ih]

theorem dget_update_by_email {s : Store} {t : Nat} {em : String}
    {u : UpdateData} {i : String} {r' : XdmRecord}
    (h : dget (update_by_email s t em u).2 i = some r') :
    dget s i = some r' ∨ r'.updatedAt = t := by
  induction s with
  | nil => simp [update_by_email, dget] at h
  | cons p rest ih =>
    by_cases hp : p.2.email = em
    · rw [update_by_email] at h
      simp only [hp, if_pos] at h
      by_cases hi : p.1 = i
      · rw [dget, if_pos hi] at h
        right
        rw [← Option.some_inj.mp h, updatedAt_applyUpdate]
      · rw [dget, if_neg hi] at h
        left
        rw [dget, if_neg hi]
        exact h
    · rw [update_by_email] at h
      simp only [hp, if_neg, not_false_iff] at h
      by_cases hi : p.1 = i
      · rw [dget, if_pos hi] at h
        left
        rw [dget, if_pos hi]
        exact h
      · rw [dget, if_neg hi] at h
        rcases ih h with h' | h'
        · left
          rw [dget, if_neg hi]
          exact h'
        · right; exact h'

end Redis

namespace Redis

open Dict

theorem delete_by_email_not_found (s : Store) (em : String)
    (h : find_by_email s em = none) : delete_by_email s em = (0, s) := by
  induction s with
  | nil => rfl
  | cons p rest ih =>
    rw [find_by_email_cons] at h
    by_cases hp : p.2.email = em
    · simp [hp] at h
    · simp [hp] at h
      simp [delete_by_email, hp, ih h]

theorem delete_by_email_le_one (s : Store) (em : String) :
    (delete_by_email s em).1 ≤ 1 := by
  induction s with
  | nil => simp [delete_by_email]
  | cons p rest ih =>
    by_cases hp : p.2.email = em <;> simp [delete_by_email, hp, ih]

theorem delete_by_email_sublist (s : Store) (em : String) :
    (delete_by_email s em).2.Sublist s := by
  induction s with
  | nil => simp [delete_by_email]
  | cons p rest ih =>
    by_cases hp : p.2.email = em
    · rw [delete_by_email]
      simp only [hp, if_pos]
      exact List.sublist_cons_self p rest
    · rw [delete_by_email]
      simp only [hp, if_neg, not_false_iff]
      exact List.Sublist.cons₂ p ih

theorem dget_delete_by_email {s : Store} {em : String} {i : String}
    {r' : XdmRecord} (hnd : NodupKeys s)
    (h : dget (delete_by_email s em).2 i = some r') : dget s i = some r' := by
  induction s with
  | nil => simp [delete_by_email, dget] at h
  | cons p rest ih =>
    rw [NodupKeys, keys_cons, List.nodup_cons] at hnd
    by_cases hp : p.2.email = em
    · rw [delete_by_email] at h
      simp only [hp, if_pos] at h
      have hi : p.1 ≠ i := by
        intro he
        exact hnd.1 (he ▸ mem_keys_of_dget h)
      rw [dget, if_neg hi]
      exact h
    · rw [delete_by_email] at h
      simp only [hp, if_neg, not_false_iff] at h
      by_cases hi : p.1 = i
      · rw [dget, if_pos hi] at h
        rw [dget, if_pos hi]
        exact h
      · rw [dget, if_neg hi] at h
        rw [dget, if_neg hi]
        exact ih hnd.2 h

theorem delete_by_email_found (s : Store) (em : String)
    (h : emailCount s em = 1) :
    (delete_by_email s em).1 = 1 ∧
    find_by_email (delete_by_email s em).2 em = none ∧
    count (delete_by_email s em).2 + 1 = count s := by
  induction s with
  | nil => simp [emailCount_nil] at h
  | cons p rest ih =>
    rw [emailCount_cons] at h
    by_cases hp : p.2.email = em
    · simp [hp] at h
      refine ⟨by simp [delete_by_email, hp], ?_, ?_⟩
      · rw [delete_by_email]
        simp only [hp, if_pos]
        exact (find_by_email_none_iff rest em).mpr h
      · rw [delete_by_email]
        simp only [hp, if_pos]
        simp [count]
    · simp [hp] at h
      have := ih h
      refine ⟨?_, ?_, ?_⟩
      · simp [delete_by_email, hp, this.1]
      · rw [delete_by_email]
        simp only [hp, if_neg, not_false_iff]
        rw [find_by_email_cons]
        simp [hp, this.2.1]
      · rw [delete_by_email]
        simp only [hp, if_neg, not_false_iff]
        simp [count] at this ⊢
        omega

theorem create_user_rejected (s : Store) (newId : String) (t : Nat)
    (nm em : String) (a : Int) (ph ad : Option String) (r : XdmRecord)
    (h : find_by_email s em = some r) :
    create_user s newId t nm em a ph ad = (none, s) := by
  simp [create_user, h]

theorem create_user_ok (s : Store) (newId : String) (t : Nat)
    (nm em : String) (a : Int) (ph ad : Option String)
    (h : find_by_email s em = none) (hnm : ¬ (nm ≠ "" ∧ pySplit nm = [])) :
    create_user s newId t nm em a ph ad =
      (some newId,
       dset s newId (createXdmRecord newId t nm em a (ph.getD "") (ad.getD ""))) := by
  simp [create_user, h, hnm, create]

theorem find_by_email_dset_new (s : Store) (j em : String) (r : XdmRecord)
    (h : find_by_email s em = none) :
    find_by_email (dset s j r) em = if r.email = em then some r else none := by
  induction s with
  | nil =>
    rw [dset]
    rw [find_by_email_cons]
    by_cases hr : r.email = em <;> simp [hr, find_by_email_nil]
  | cons p rest ih =>
    rw [find_by_email_cons] at h
    by_cases hp : p.2.email = em
    · simp [hp] at h
    · simp [hp] at h
      by_cases hj : p.1 = j
      · rw [dset, if_pos hj, find_by_email_cons]
        by_cases hr : r.email = em <;> simp [hr]
        exact h
      · rw [dset, if_neg hj, find_by_email_cons]
        simp [hp, ih h]

end Redis

namespace Dict

theorem nodup_keys_dset {α : Type} {d : List (String × α)} {j : String}
    {v : α} (h : (keys d).Nodup) : (keys (dset d j v)).Nodup := by
  rw [keys_dset]
  by_cases hm : j ∈ keys d
  · simpa [hm] using h
  · rw [if_neg hm]
    exact List.Nodup.append h (List.nodup_singleton j)
      (List.disjoint_singleton.mpr hm)

end Dict

namespace Redis

open Dict

theorem nodup_step {s : Store} {t : Nat} {op : Op} (hnd : NodupKeys s) :
    NodupKeys (step s t op) := by
  cases op with
  | opCreate newId nm em a ph ad =>
    rw [step, create_user]
    cases hf : find_by_email s em with
    | some r => exact hnd
    | none =>
      by_cases hnm : nm ≠ "" ∧ pySplit nm = []
      · simpa [hnm] using hnd
      · simp only [hnm, if_neg, not_false_iff]
        exact nodup_keys_dset hnd
  | opUpdate em u =>
    rw [NodupKeys] at hnd ⊢
    rw [step, keys_update_by_email]
    exact hnd
  | opDelete em =>
    rw [NodupKeys] at hnd ⊢
    exact hnd.sublist (List.Sublist.map Prod.fst (delete_by_email_sublist s em))
  | opDeleteAll =>
    simp [step, delete_all, NodupKeys, keys]

theorem dget_step {s : Store} {t : Nat} {op : Op} {i : String}
    {r' : XdmRecord} (hnd : NodupKeys s)
    (h : dget (step s t op) i = some r') :
    dget s i = some r' ∨ r'.updatedAt = t := by
  cases op with
  | opCreate newId nm em a ph ad =>
    rw [step, create_user] at h
    cases hf : find_by_email s em with
    | some r =>
      rw [hf] at h
      exact Or.inl h
    | none =>
      rw [hf] at h
      by_cases hnm : nm ≠ "" ∧ pySplit nm = []
      · rw [if_pos hnm] at h
        exact Or.inl h
      · rw [if_neg hnm] at h
        rw [create] at h
        rw [dget_dset] at h
        by_cases hi : i = newId
        · rw [if_pos hi] at h
          right
          rw [← Option.some_inj.mp h]
          rfl
        · rw [if_neg hi] at h
          exact Or.inl h
  | opUpdate em u => exact dget_update_by_email h
  | opDelete em => exact Or.inl (dget_delete_by_email hnd h)
  | opDeleteAll => simp [step, delete_all, dget] at h

theorem run_lookup {tr : List (Nat × Op)} {s : Store} {B : Nat}
    {i : String} {r' : XdmRecord} (hnd : NodupKeys s)
    (hch : TimesChain B tr) (h : dget (run s tr) i = some r') :
    dget s i = some r' ∨ B ≤ r'.updatedAt := by
  induction tr generalizing s B with
  | nil => exact Or.inl h
  | cons p tr ih =>
    rw [TimesChain] at hch
    rw [run] at h
    rcases ih (nodup_step hnd) hch.2 h with h' | h'
    · rcases dget_step hnd h' with h'' | h''
      · exact Or.inl h''
      · exact Or.inr (h'' ▸ hch.1)
    · exact Or.inr (le_trans hch.1 h')

end Redis

namespace Dict

theorem dget_dmerge_strings (a b : List (String × String)) (k : String)
    (hnd : (keys b).Nodup) :
    dget (FsStore.dmerge a b) k = if k ∈ keys b then dget b k else dget a k := by
  induction b generalizing a with
  | nil => simp [FsStore.dmerge, keys]
  | cons q b ih =>
    rw [keys_cons, List.nodup_cons] at hnd
    have hstep : FsStore.dmerge a (q :: b) = FsStore.dmerge (dset a q.1 q.2) b := by
      simp [FsStore.dmerge]
    rw [hstep, ih _ hnd.2]
    by_cases hm : k ∈ keys b
    · have hk : k ≠ q.1 := fun he => hnd.1 (he ▸ hm)
      have : k ∈ keys (q :: b) := by
        rw [keys_cons]
        exact List.mem_cons_of_mem _ hm
      rw [if_pos hm, if_pos this, dget, if_neg (fun he => hk he.symm)]
    · rw [if_neg hm, dget_dset]
      by_cases hk : k = q.1
      · have : k ∈ keys (q :: b) := by
          rw [keys_cons, hk]
          exact List.mem_cons_self _ _
        rw [if_pos hk, if_pos this, dget, if_pos hk.symm]
      · have : k ∉ keys (q :: b) := by
          rw [keys_cons, List.mem_cons]
          push_neg
          exact ⟨hk, hm⟩
        rw [if_neg hk, if_neg this]

end Dict

namespace FsStore

open Dict

theorem delete_step (sp : String) (p : String × FileInfo)
    (rest : List (String × FileInfo)) (fs : Fs) :
    delete ⟨sp, p :: rest⟩ fs p.1 =
      (true, ⟨sp, rest⟩, ddel fs p.2.stored_path) := by
  simp [delete, dget, ddel]

theorem delete_all_snapshot (st : SDFS) (fs : Fs) :
    (delete_all st fs).1 = count st := rfl

theorem delete_all_fold_aux (l : List (String × FileInfo)) (sp : String)
    (fs : Fs) :
    ((keys l).foldl deleteFold (SDFS.mk sp l, fs)).1.files = [] := by
  induction l generalizing fs with
  | nil => simp [keys]
  | cons p rest ih =>
    rw [keys_cons, List.foldl_cons]
    have hone : deleteFold (SDFS.mk sp (p :: rest), fs) p.1 =
        (SDFS.mk sp rest, ddel fs p.2.stored_path) := by
      simp [deleteFold, delete_step]
    rw [hone]
    exact ih (ddel fs p.2.stored_path)

theorem delete_all_empties (st : SDFS) (fs : Fs) :
    (delete_all st fs).2.1.files = [] := by
  rcases st with ⟨sp, files⟩
  exact delete_all_fold_aux files sp fs

theorem delete_found (st : SDFS) (fs : Fs) (fid : String) (info : FileInfo)
    (hnd : (keys st.files).Nodup) (h : read_by_id st fid = some info) :
    (delete st fs fid).1 = true ∧
    read_by_id (delete st fs fid).2.1 fid = none ∧
    count (delete st fs fid).2.1 + 1 = count st := by
  rw [read_by_id] at h
  refine ⟨by simp [delete, h], ?_, ?_⟩
  · rw [delete]
    simp only [h]
    rw [read_by_id]
    exact dget_ddel_self_of_nodup hnd
  · rw [delete]
    simp only [h]
    rw [count, count]
    exact ddel_length_of_mem (mem_keys_of_dget h)

theorem create_ok (st : SDFS) (fs : Fs) (newId : String) (t : Nat)
    (src : String) (md : List (String × String)) (c : String)
    (h : dget fs src = some (FileData.complete c)) :
    create st fs newId t src md true =
      (some newId,
       SDFS.mk st.storage_path
         (dset st.files newId
           (FileInfo.mk newId (baseName src)
             (st.storage_path ++ "/" ++ newId ++ "_" ++ baseName src)
             c.length t md none)),
       dset fs (st.storage_path ++ "/" ++ newId ++ "_" ++ baseName src)
         (FileData.complete c)) := by
  simp [create, h, contentOf]

theorem create_failed_copy (st : SDFS) (fs : Fs) (newId : String) (t : Nat)
    (src : String) (md : List (String × String)) (d : FileData)
    (h : dget fs src = some d) :
    create st fs newId t src md false =
      (none, st,
       dset fs (st.storage_path ++ "/" ++ newId ++ "_" ++ baseName src)
         (FileData.truncated (contentOf d))) := by
  simp [create, h]

theorem update_metadata_found (st : SDFS) (fid : String) (info : FileInfo)
    (new_md : List (String × String)) (t : Nat)
    (h : read_by_id st fid = some info) :
    update_metadata st fid new_md t =
      (true,
       SDFS.mk st.storage_path
         (dset st.files fid
           (FileInfo.mk info.file_id info.original_name info.stored_path
             info.size_bytes info.uploaded_at
             (dmerge info.metadata new_md) (some t)))) := by
  rw [read_by_id] at h
  simp [update_metadata, h]

end FsStore

namespace Lab3

theorem get_user_by_email_nil (em : String) :
    get_user_by_email [] em = none := rfl

theorem get_user_by_email_cons (u : MUser) (rest : Coll) (em : String) :
    get_user_by_email (u :: rest) em =
      if u.email = em then some u else get_user_by_email rest em := by
  by_cases h : u.email = em <;> simp [get_user_by_email, h]

theorem get_user_by_email_append_of_none (c : Coll) (u : MUser) (em : String)
    (h : get_user_by_email c em = none) :
    get_user_by_email (c ++ [u]) em =
      if u.email = em then some u else none := by
  induction c with
  | nil =>
    rw [List.nil_append, get_user_by_email_cons, get_user_by_email_nil]
  | cons v rest ih =>
    rw [get_user_by_email_cons] at h
    by_cases hv : v.email = em
    · simp [hv] at h
    · simp [hv] at h
      rw [List.cons_append, get_user_by_email_cons, if_neg hv, ih h]

theorem emailCount_lab3_nil (em : String) : emailCount [] em = 0 := rfl

theorem emailCount_lab3_cons (u : MUser) (rest : Coll) (em : String) :
    emailCount (u :: rest) em =
      (if u.email = em then 1 else 0) + emailCount rest em := by
  by_cases h : u.email = em <;>
    simp [emailCount, List.filter, h, Nat.add_comm]

theorem get_user_by_email_none_iff (c : Coll) (em : String) :
    get_user_by_email c em = none ↔ emailCount c em = 0 := by
  induction c with
  | nil => simp [get_user_by_email_nil, emailCount_lab3_nil]
  | cons u rest ih =>
    rw [get_user_by_email_cons, emailCount_lab3_cons]
    by_cases h : u.email = em <;> simp [h, ih]

theorem update_user_le_one (c : Coll) (t : Nat) (em : String) (d : UpdData) :
    (update_user c t em d).1 ≤ 1 := by
  induction c with
  | nil => simp [update_user]
  | cons u rest ih =>
    by_cases h : u.email = em
    · by_cases he : applyUpd u d t = u <;> simp [update_user, h, he]
    · simp [update_user, h, ih]

theorem update_user_not_found (c : Coll) (t : Nat) (em : String) (d : UpdData)
    (h : get_user_by_email c em = none) : update_user c t em d = (0, c) := by
  induction c with
  | nil => rfl
  | cons u rest ih =>
    rw [get_user_by_email_cons] at h
    by_cases hu : u.email = em
    · simp [hu] at h
    · simp [hu] at h
      simp [update_user, hu, ih h]

theorem delete_user_not_found (c : Coll) (em : String)
    (h : get_user_by_email c em = none) : delete_user c em = (0, c) := by
  induction c with
  | nil => rfl
  | cons u rest ih =>
    rw [get_user_by_email_cons] at h
    by_cases hu : u.email = em
    · simp [hu] at h
    · simp [hu] at h
      simp [delete_user, hu, ih h]

theorem delete_user_le_one (c : Coll) (em : String) :
    (delete_user c em).1 ≤ 1 := by
  induction c with
  | nil => simp [delete_user]
  | cons u rest ih =>
    by_cases h : u.email = em <;> simp [delete_user, h, ih]

theorem delete_user_found (c : Coll) (em : String)
    (h : emailCount c em = 1) :
    (delete_user c em).1 = 1 ∧
    get_user_by_email (delete_user c em).2 em = none ∧
    get_stats (delete_user c em).2 + 1 = get_stats c := by
  induction c with
  | nil => simp [emailCount_lab3_nil] at h
  | cons u rest ih =>
    rw [emailCount_lab3_cons] at h
    by_cases hu : u.email = em
    · simp [hu] at h
      refine ⟨by simp [delete_user, hu], ?_, ?_⟩
      · rw [delete_user]
        simp only [hu, if_pos]
        exact (get_user_by_email_none_iff rest em).mpr h
      · rw [delete_user]
        simp only [hu, if_pos]
        simp [get_stats]
    · simp [hu] at h
      have := ih h
      refine ⟨?_, ?_, ?_⟩
      · simp [delete_user, hu, this.1]
      · rw [delete_user]
        simp only [hu, if_neg, not_false_iff]
        rw [get_user_by_email_cons]
        simp [hu, this.2.1]
      · rw [delete_user]
        simp only [hu, if_neg, not_false_iff]
        simp [get_stats] at this ⊢
        omega

end Lab3

namespace Redis

theorem update_by_email_split (s1 : Store) (i : String) (r : XdmRecord)
    (s2 : Store) (t : Nat) (em : String) (u : UpdateData)
    (hr : r.email = em) (hs1 : ∀ p ∈ s1, (Prod.snd p).email ≠ em) :
    update_by_email (s1 ++ (i, r) :: s2) t em u =
      (1, s1 ++ (i, applyUpdate r u t) :: s2) := by
  induction s1 with
  | nil => simp [update_by_email, hr]
  | cons p s1 ih =>
    have hp : p.2.email ≠ em := hs1 p (List.mem_cons_self p s1)
    have ih' := ih (fun q hq => hs1 q (List.mem_cons_of_mem p hq))
    simp [update_by_email, hp, ih']

theorem delete_by_email_split (s1 : Store) (i : String) (r : XdmRecord)
    (s2 : Store) (em : String)
    (hr : r.email = em) (hs1 : ∀ p ∈ s1, (Prod.snd p).email ≠ em) :
    delete_by_email (s1 ++ (i, r) :: s2) em = (1, s1 ++ s2) := by
  induction s1 with
  | nil => simp [delete_by_email, hr]
  | cons p s1 ih =>
    have hp : p.2.email ≠ em := hs1 p (List.mem_cons_self p s1)
    have ih' := ih (fun q hq => hs1 q (List.mem_cons_of_mem p hq))
    simp [delete_by_email, hp, ih']

end Redis

/-- C1: against the claim that every variant rejects a `create` whose
email is already live, the MongoDB variant (`lab3/crud.py`) performs no
uniqueness check: creating "Bob" with the email already held by "Ann"
succeeds and grows the collection from 1 to 2 documents. -/
theorem c1_duplicate_create_counterexample :
    Lab3.get_stats (Lab3.create_user [] 0 "Ann" "ann@x.com" 30 none none) = 1 ∧
    Lab3.get_user_by_email (Lab3.create_user [] 0 "Ann" "ann@x.com" 30 none none)
      "ann@x.com" ≠ none ∧
    Lab3.get_stats (Lab3.create_user
      (Lab3.create_user [] 0 "Ann" "ann@x.com" 30 none none)
      1 "Bob" "ann@x.com" 25 none none) = 2 :=
  ⟨by decide, by decide, by decide⟩

/-- C1 (amended): in the Redis-backed variant, `create_user` with an
email that already has a live record is rejected — `None` is returned,
nothing is stored and the count is unchanged; the MongoDB variant of
`lab3/crud.py` performs no uniqueness check, so `create_user` always
appends a document and grows the collection by one, even when the email
is already live. -/
theorem c1_duplicate_create_amended (s : Redis.Store) (newId : String)
    (t : Nat) (nm em : String) (a : Int) (ph ad : Option String)
    (r : Redis.XdmRecord) (h : Redis.find_by_email s em = some r) :
    Redis.create_user s newId t nm em a ph ad = (none, s) ∧
    Redis.count (Redis.create_user s newId t nm em a ph ad).2 = Redis.count s ∧
    (∀ (c : Lab3.Coll) (t2 : Nat) (nm2 em2 : String) (a2 : Int)
       (ph2 ad2 : Option String),
       Lab3.get_stats (Lab3.create_user c t2 nm2 em2 a2 ph2 ad2) =
         Lab3.get_stats c + 1) := by
  have hrej := Redis.create_user_rejected s newId t nm em a ph ad r h
  refine ⟨hrej, by rw [hrej], ?_⟩
  intro c t2 nm2 em2 a2 ph2 ad2
  simp [Lab3.create_user, Lab3.get_stats]

/-- C1 witness: a concrete rejected duplicate creation in the
Redis-backed variant. -/
theorem c1_duplicate_create_witness :
    Redis.create_user
      [("adobe_1", Redis.createXdmRecord "adobe_1" 0 "Ann" "ann@x.com" 30 "" "")]
      "adobe_2" 1 "Bob" "ann@x.com" 25 none none =
      (none,
       [("adobe_1", Redis.createXdmRecord "adobe_1" 0 "Ann" "ann@x.com" 30 "" "")]) :=
  (c1_duplicate_create_amended _ "adobe_2" 1 "Bob" "ann@x.com" 25 none none
    (Redis.createXdmRecord "adobe_1" 0 "Ann" "ann@x.com" 30 "" "")
    (by decide)).1

/-- C2: in all three variants, `delete_all` returns the number of records
it removes (the size of the store just before the call) and the count
immediately afterwards is 0. -/
theorem c2_delete_all_empties (s : Redis.Store) (c : Lab3.Coll)
    (st : FsStore.SDFS) (fs : FsStore.Fs) :
    (Redis.delete_all s).1 = Redis.count s ∧
    Redis.count (Redis.delete_all s).2 = 0 ∧
    (Lab3.delete_all_users c).1 = Lab3.get_stats c ∧
    Lab3.get_stats (Lab3.delete_all_users c).2 = 0 ∧
    (FsStore.delete_all st fs).1 = FsStore.count st ∧
    FsStore.count (FsStore.delete_all st fs).2.1 = 0 := by
  refine ⟨rfl, rfl, rfl, rfl, rfl, ?_⟩
  rw [FsStore.count, FsStore.delete_all_empties]
  rfl

/-- C3: against the claim that create-then-read returns every supplied
field exactly, the Redis-backed variant stores only the first and last
whitespace-separated words of the name: creating "Ann Marie Smith" and
reading the record back by email yields the name "Ann Smith". -/
theorem c3_create_read_counterexample :
    ((Redis.get_user_by_email
        (Redis.create_user [] "adobe_1" 0 "Ann Marie Smith" "ann@x.com"
          30 none none).2 "ann@x.com").map
      (fun r => (Redis.extractUser "ann@x.com" r).name)) = some "Ann Smith" ∧
    "Ann Smith" ≠ "Ann Marie Smith" :=
  ⟨by decide, by decide⟩

/-- C3 (amended): after a successful `create_user`, reading back by email
returns a record whose email, age, phone and address are exactly the
supplied values and whose timestamps are the creation time; the name,
however, is the first-word/last-word projection of the supplied name (so
it equals the supplied name only when that name has at most two
whitespace-separated words).  The MongoDB variant of `lab3/crud.py`
stores the document verbatim, so there create-then-read returns every
supplied field exactly. -/
theorem c3_create_read_amended (s : Redis.Store) (newId : String) (t : Nat)
    (nm em : String) (a : Int) (ph ad : Option String)
    (h : Redis.find_by_email s em = none)
    (hnm : ¬ (nm ≠ "" ∧ Redis.pySplit nm = [])) :
    (∃ r, Redis.get_user_by_email
        (Redis.create_user s newId t nm em a ph ad).2 em = some r ∧
      Redis.extractUser em r =
        { adobe_id := newId
          email := em
          name := Redis.pyStrip (Redis.firstNameOfParts (Redis.pySplit nm)
            ++ " " ++ Redis.lastNameOfParts (Redis.pySplit nm))
          age := a
          phone := ph.getD ""
          address := ad.getD ""
          created_at := t
          updated_at := t }) ∧
    (∀ (c : Lab3.Coll) (t2 : Nat) (nm2 em2 : String) (a2 : Int)
       (ph2 ad2 : Option String),
       Lab3.get_user_by_email c em2 = none →
       Lab3.get_user_by_email (Lab3.create_user c t2 nm2 em2 a2 ph2 ad2) em2 =
         some { name := nm2, email := em2, age := a2, phone := ph2,
                address := ad2, created_at := t2, updated_at := t2 }) := by
  constructor
  · rw [Redis.create_user_ok s newId t nm em a ph ad h hnm]
    refine ⟨Redis.createXdmRecord newId t nm em a (ph.getD "") (ad.getD ""), ?_, rfl⟩
    rw [Redis.get_user_by_email,
      Redis.find_by_email_dset_new s newId em _ h]
    simp [Redis.createXdmRecord]
  · intro c t2 nm2 em2 a2 ph2 ad2 hc
    rw [Lab3.create_user, Lab3.get_user_by_email_append_of_none c _ em2 hc]
    simp

/-- C3 witness: a concrete successful round trip through the Redis-backed
variant with a two-word name. -/
theorem c3_create_read_witness :
    ∃ r, Redis.get_user_by_email
        (Redis.create_user [] "adobe_1" 7 "Ann Lee" "ann@x.com" 30
          (some "123") (some "Street 1")).2 "ann@x.com" = some r ∧
      Redis.extractUser "ann@x.com" r =
        { adobe_id := "adobe_1"
          email := "ann@x.com"
          name := "Ann Lee"
          age := 30
          phone := "123"
          address := "Street 1"
          created_at := 7
          updated_at := 7 } :=
  (c3_create_read_amended [] "adobe_1" 7 "Ann Lee" "ann@x.com" 30
    (some "123") (some "Street 1") (by decide) (by decide)).1

/-- C4: against the claim that after `update(k, {field: v})` a read back
returns that field equal to `v`, updating the name to "Ann Marie Smith"
in the Redis-backed variant succeeds (count 1) but the record read back
carries the name "Ann Smith": the middle word is dropped by the
first/last split. -/
theorem c4_update_read_counterexample :
    (Redis.update_by_email
      (Redis.create_user [] "adobe_1" 0 "Ann Lee" "ann@x.com" 30 none none).2
      5 "ann@x.com" ⟨some "Ann Marie Smith", none, none, none⟩).1 = 1 ∧
    ((Redis.get_user_by_email
        (Redis.update_by_email
          (Redis.create_user [] "adobe_1" 0 "Ann Lee" "ann@x.com" 30 none none).2
          5 "ann@x.com" ⟨some "Ann Marie Smith", none, none, none⟩).2
        "ann@x.com").map
      (fun r => (Redis.extractUser "ann@x.com" r).name)) = some "Ann Smith" ∧
    "Ann Smith" ≠ "Ann Marie Smith" :=
  ⟨by decide, by decide, by decide⟩

/-- C4 (amended): (1) in the Redis-backed variant, when a record with the
given email is live, `update_by_email` returns 1 and a read back by email
returns the updated record: an updated age, phone or address equals the
supplied value exactly, an updated name is stored as its first/last-word
projection, `updatedAt` becomes the update's clock value and is strictly
greater than the previous one whenever the clock advanced; (2) per
record (by id), `updatedAt` never decreases across any sequence of
menu-level operations run at non-decreasing clock values; (3) in the
file-backed variant, after `update_metadata` succeeds, reading the file
back returns metadata in which every updated key holds its new value, and
`updated_at` set to the update's clock value. -/
theorem c4_update_read_amended :
    (∀ (s : Redis.Store) (t : Nat) (em : String) (u : Redis.UpdateData)
       (r : Redis.XdmRecord),
       Redis.find_by_email s em = some r →
       (Redis.update_by_email s t em u).1 = 1 ∧
       Redis.get_user_by_email (Redis.update_by_email s t em u).2 em =
         some (Redis.applyUpdate r u t) ∧
       (∀ a, u.age = some a → (Redis.applyUpdate r u t).age = a) ∧
       (∀ p, u.phone = some p → (Redis.applyUpdate r u t).phone = p) ∧
       (∀ ad, u.address = some ad → (Redis.applyUpdate r u t).address = ad) ∧
       (∀ nm, u.name = some nm →
          (Redis.applyUpdate r u t).firstName =
            Redis.firstNameOfParts (Redis.pySplit nm) ∧
          (Redis.applyUpdate r u t).lastName =
            Redis.lastNameOfParts (Redis.pySplit nm)) ∧
       (Redis.applyUpdate r u t).updatedAt = t ∧
       (r.updatedAt < t → r.updatedAt < (Redis.applyUpdate r u t).updatedAt)) ∧
    (∀ (s : Redis.Store) (B : Nat) (tr : List (Nat × Redis.Op)) (i : String)
       (r r' : Redis.XdmRecord),
       Redis.NodupKeys s → Redis.TimesChain B tr →
       Dict.dget s i = some r → r.updatedAt ≤ B →
       Dict.dget (Redis.run s tr) i = some r' →
       r.updatedAt ≤ r'.updatedAt) ∧
    (∀ (st : FsStore.SDFS) (fid : String) (info : FsStore.FileInfo)
       (md : List (String × String)) (t : Nat) (k v : String),
       FsStore.read_by_id st fid = some info →
       (Dict.keys md).Nodup →
       Dict.dget md k = some v →
       ∃ info2,
         FsStore.read_by_id (FsStore.update_metadata st fid md t).2 fid =
           some info2 ∧
         Dict.dget info2.metadata k = some v ∧
         info2.updated_at = some t) := by
  refine ⟨?_, ?_, ?_⟩
  · intro s t em u r h
    have hf := Redis.update_by_email_found s t em u r h
    refine ⟨hf.1, hf.2, fun a ha => Redis.age_applyUpdate ha,
      fun p hp => Redis.phone_applyUpdate hp,
      fun ad had => Redis.address_applyUpdate had,
      fun nm hnm => Redis.name_applyUpdate hnm,
      Redis.updatedAt_applyUpdate r u t, ?_⟩
    intro hlt
    rw [Redis.updatedAt_applyUpdate]
    exact hlt
  · intro s B tr i r r' hnd hch hget hle hget'
    rcases Redis.run_lookup hnd hch hget' with h' | h'
    · rw [hget] at h'
      rw [Option.some_inj.mp h']
    · exact le_trans hle h'
  · intro st fid info md t k v h hnd hk
    rw [FsStore.update_metadata_found st fid info md t h]
    refine ⟨FsStore.FileInfo.mk info.file_id info.original_name
      info.stored_path info.size_bytes info.uploaded_at
      (FsStore.dmerge info.metadata md) (some t), ?_, ?_, rfl⟩
    · rw [FsStore.read_by_id]
      show Dict.dget (Dict.dset st.files fid _) fid = _
      rw [Dict.dget_dset, if_pos rfl]
    · show Dict.dget (FsStore.dmerge info.metadata md) k = some v
      rw [Dict.dget_dmerge_strings info.metadata md k hnd,
        if_pos (Dict.mem_keys_of_dget hk)]
      exact hk

/-- C4 witness: a concrete age update in the Redis-backed variant. -/
theorem c4_update_read_witness :
    (Redis.update_by_email
      [("adobe_1", Redis.createXdmRecord "adobe_1" 0 "Ann" "ann@x.com" 30 "" "")]
      5 "ann@x.com" ⟨none, some 31, none, none⟩).1 = 1 :=
  (c4_update_read_amended.1
    [("adobe_1", Redis.createXdmRecord "adobe_1" 0 "Ann" "ann@x.com" 30 "" "")]
    5 "ann@x.com" ⟨none, some 31, none, none⟩
    (Redis.createXdmRecord "adobe_1" 0 "Ann" "ann@x.com" 30 "" "")
    (by decide)).1

/-- C5: in both user-store variants, `update` by email returns the count
of records modified, which is 0 or 1, and when no record with the email
exists the call is not an error: it returns 0 and leaves the store
untouched. -/
theorem c5_update_count (s : Redis.Store) (t : Nat) (em : String)
    (u : Redis.UpdateData) (c : Lab3.Coll) (t2 : Nat) (em2 : String)
    (d : Lab3.UpdData) :
    (Redis.update_by_email s t em u).1 ≤ 1 ∧
    (Redis.find_by_email s em = none →
      Redis.update_by_email s t em u = (0, s)) ∧
    (Lab3.update_user c t2 em2 d).1 ≤ 1 ∧
    (Lab3.get_user_by_email c em2 = none →
      Lab3.update_user c t2 em2 d = (0, c)) :=
  ⟨Redis.update_by_email_le_one s t em u,
   Redis.update_by_email_not_found s t em u,
   Lab3.update_user_le_one c t2 em2 d,
   Lab3.update_user_not_found c t2 em2 d⟩

/-- C5 witness: a concrete update of an absent email returning count 0 on
an untouched store. -/
theorem c5_update_count_witness :
    Redis.update_by_email
      [("adobe_1", Redis.createXdmRecord "adobe_1" 0 "Ann" "ann@x.com" 30 "" "")]
      3 "bob@x.com" ⟨none, some 31, none, none⟩ =
      (0, [("adobe_1", Redis.createXdmRecord "adobe_1" 0 "Ann" "ann@x.com" 30 "" "")]) :=
  (c5_update_count
    [("adobe_1", Redis.createXdmRecord "adobe_1" 0 "Ann" "ann@x.com" 30 "" "")]
    3 "bob@x.com" ⟨none, some 31, none, none⟩
    [] 0 "bob@x.com" ⟨none, none, none, none⟩).2.1 (by decide)

/-- C6: against the claim that delete-then-read returns absence for every
store containing a live record with the key, the MongoDB variant reaches
stores holding two documents with the same email (its `create_user`
performs no uniqueness check): after deleting "ann@x.com" from such a
store, the delete reports 1 but a read by "ann@x.com" still finds a
record. -/
theorem c6_delete_read_counterexample :
    (Lab3.delete_user
      (Lab3.create_user (Lab3.create_user [] 0 "Ann" "ann@x.com" 30 none none)
        1 "Bob" "ann@x.com" 25 none none) "ann@x.com").1 = 1 ∧
    Lab3.get_user_by_email
      (Lab3.delete_user
        (Lab3.create_user (Lab3.create_user [] 0 "Ann" "ann@x.com" 30 none none)
          1 "Bob" "ann@x.com" 25 none none) "ann@x.com").2 "ann@x.com" ≠ none :=
  ⟨by decide, by decide⟩

/-- C6 (amended): when the key is carried by exactly one live record —
the invariant the uniqueness check maintains, violated only by the
MongoDB variant's duplicate-accepting create — delete followed by a read
of that key returns absence, and the count decreases by exactly 1.  This
holds in the Redis variant (delete by email), the MongoDB variant (delete
by email), and the file-backed variant (delete by unique file id). -/
theorem c6_delete_read_amended (s : Redis.Store) (em : String)
    (c : Lab3.Coll) (em2 : String) (st : FsStore.SDFS) (fs : FsStore.Fs)
    (fid : String) (info : FsStore.FileInfo)
    (h1 : Redis.emailCount s em = 1) (h2 : Lab3.emailCount c em2 = 1)
    (h3 : (Dict.keys st.files).Nodup)
    (h4 : FsStore.read_by_id st fid = some info) :
    (Redis.delete_by_email s em).1 = 1 ∧
    Redis.find_by_email (Redis.delete_by_email s em).2 em = none ∧
    Redis.count (Redis.delete_by_email s em).2 + 1 = Redis.count s ∧
    (Lab3.delete_user c em2).1 = 1 ∧
    Lab3.get_user_by_email (Lab3.delete_user c em2).2 em2 = none ∧
    Lab3.get_stats (Lab3.delete_user c em2).2 + 1 = Lab3.get_stats c ∧
    (FsStore.delete st fs fid).1 = true ∧
    FsStore.read_by_id (FsStore.delete st fs fid).2.1 fid = none ∧
    FsStore.count (FsStore.delete st fs fid).2.1 + 1 = FsStore.count st := by
  have hr := Redis.delete_by_email_found s em h1
  have hl := Lab3.delete_user_found c em2 h2
  have hf := FsStore.delete_found st fs fid info h3 h4
  exact ⟨hr.1, hr.2.1, hr.2.2, hl.1, hl.2.1, hl.2.2, hf.1, hf.2.1, hf.2.2⟩

/-- C6 witness: concrete single-record stores in all three variants. -/
theorem c6_delete_read_witness :
    Redis.find_by_email
      (Redis.delete_by_email
        [("adobe_1", Redis.createXdmRecord "adobe_1" 0 "Ann" "ann@x.com" 30 "" "")]
        "ann@x.com").2 "ann@x.com" = none :=
  (c6_delete_read_amended
    [("adobe_1", Redis.createXdmRecord "adobe_1" 0 "Ann" "ann@x.com" 30 "" "")]
    "ann@x.com"
    [{ name := "Ann", email := "ann@x.com", age := 30, phone := none,
       address := none, created_at := 0, updated_at := 0 }]
    "ann@x.com"
    (FsStore.SDFS.mk "store"
      [("adobe_1", FsStore.FileInfo.mk "adobe_1" "a.txt" "store/adobe_1_a.txt"
        5 0 [] none)])
    [("store/adobe_1_a.txt", FsStore.FileData.complete "hello")]
    "adobe_1"
    (FsStore.FileInfo.mk "adobe_1" "a.txt" "store/adobe_1_a.txt" 5 0 [] none)
    (by decide) (by decide) (by decide) (by decide)).2.1

/-- C8: against the claim that a failed copy during the file-backed
`create` is cleaned up, the partially-written destination file is left
behind: after a failed create of "src.txt" into an empty store, the
storage directory holds a truncated "store/adobe_1_src.txt" and the
filesystem differs from its prior state. -/
theorem c8_failed_create_counterexample :
    (FsStore.create (FsStore.init "store")
      [("src.txt", FsStore.FileData.complete "hello")]
      "adobe_1" 0 "src.txt" [] false).1 = none ∧
    Dict.dget (FsStore.create (FsStore.init "store")
      [("src.txt", FsStore.FileData.complete "hello")]
      "adobe_1" 0 "src.txt" [] false).2.2 "store/adobe_1_src.txt" =
      some (FsStore.FileData.truncated "hello") ∧
    (FsStore.create (FsStore.init "store")
      [("src.txt", FsStore.FileData.complete "hello")]
      "adobe_1" 0 "src.txt" [] false).2.2 ≠
      [("src.txt", FsStore.FileData.complete "hello")] :=
  ⟨by decide, by decide, by decide⟩

/-- C8 (amended): a failed copy during the file-backed `create` returns
`None` and leaves the store's tracked state unchanged — `read_all`,
`read_by_id` and `count` all answer exactly as before, so the destination
file is not visible through the store's index — but no cleanup happens:
the partially-written destination file remains in the storage
directory. -/
theorem c8_failed_create_amended (st : FsStore.SDFS) (fs : FsStore.Fs)
    (newId : String) (t : Nat) (src : String)
    (md : List (String × String)) :
    (FsStore.create st fs newId t src md false).1 = none ∧
    (FsStore.create st fs newId t src md false).2.1 = st ∧
    FsStore.read_all (FsStore.create st fs newId t src md false).2.1 =
      FsStore.read_all st ∧
    (∀ fid, FsStore.read_by_id (FsStore.create st fs newId t src md false).2.1 fid =
      FsStore.read_by_id st fid) ∧
    FsStore.count (FsStore.create st fs newId t src md false).2.1 =
      FsStore.count st ∧
    (∀ d, Dict.dget fs src = some d →
      Dict.dget (FsStore.create st fs newId t src md false).2.2
          (st.storage_path ++ "/" ++ newId ++ "_" ++ FsStore.baseName src) =
        some (FsStore.FileData.truncated (FsStore.contentOf d))) := by
  cases hsrc : Dict.dget fs src with
  | none =>
    have : FsStore.create st fs newId t src md false = (none, st, fs) := by
      simp [FsStore.create, hsrc]
    rw [this]
    refine ⟨rfl, rfl, rfl, fun _ => rfl, rfl, ?_⟩
    intro d hd
    exact absurd hd (by simp)
  | some d0 =>
    rw [FsStore.create_failed_copy st fs newId t src md d0 hsrc]
    refine ⟨rfl, rfl, rfl, fun _ => rfl, rfl, ?_⟩
    intro d hd
    have hdd : d0 = d := Option.some_inj.mp hd
    subst hdd
    show Dict.dget (Dict.dset fs _ _) _ = _
    rw [Dict.dget_dset, if_pos rfl]

/-- C8 witness: a concrete failed create leaving the truncated file. -/
theorem c8_failed_create_witness :
    Dict.dget (FsStore.create (FsStore.init "st2")
        [("b.txt", FsStore.FileData.complete "data")]
        "adobe_7" 3 "b.txt" [] false).2.2 "st2/adobe_7_b.txt" =
      some (FsStore.FileData.truncated "data") :=
  (c8_failed_create_amended (FsStore.init "st2")
    [("b.txt", FsStore.FileData.complete "data")]
    "adobe_7" 3 "b.txt" []).2.2.2.2.2
    (FsStore.FileData.complete "data") (by decide)

/-- C9: in the Redis-backed variant, when several live records carry the
same email, `update_by_email` rewrites only the first match in iteration
order — leaving every record before and after it untouched — and
`delete_by_email` removes only that first match; both report 1 there and
never return more than 1 on any store. -/
theorem c9_first_match_only (s1 : Redis.Store) (i : String)
    (r : Redis.XdmRecord) (s2 : Redis.Store) (t : Nat) (em : String)
    (u : Redis.UpdateData)
    (hr : r.email = em) (hs1 : ∀ p ∈ s1, (Prod.snd p).email ≠ em) :
    Redis.update_by_email (s1 ++ (i, r) :: s2) t em u =
      (1, s1 ++ (i, Redis.applyUpdate r u t) :: s2) ∧
    Redis.delete_by_email (s1 ++ (i, r) :: s2) em = (1, s1 ++ s2) ∧
    (∀ s : Redis.Store, (Redis.update_by_email s t em u).1 ≤ 1 ∧
      (Redis.delete_by_email s em).1 ≤ 1) :=
  ⟨Redis.update_by_email_split s1 i r s2 t em u hr hs1,
   Redis.delete_by_email_split s1 i r s2 em hr hs1,
   fun s => ⟨Redis.update_by_email_le_one s t em u,
     Redis.delete_by_email_le_one s em⟩⟩

/-- C9 witness: a concrete store with two records sharing an email — the
first match is deleted, the other record survives unchanged. -/
theorem c9_first_match_only_witness :
    Redis.delete_by_email
      [("adobe_0", Redis.createXdmRecord "adobe_0" 0 "Eve" "eve@x.com" 20 "" ""),
       ("adobe_1", Redis.createXdmRecord "adobe_1" 1 "Ann" "ann@x.com" 30 "" ""),
       ("adobe_2", Redis.createXdmRecord "adobe_2" 2 "Ann B" "ann@x.com" 31 "" "")]
      "ann@x.com" =
      (1,
       [("adobe_0", Redis.createXdmRecord "adobe_0" 0 "Eve" "eve@x.com" 20 "" ""),
        ("adobe_2", Redis.createXdmRecord "adobe_2" 2 "Ann B" "ann@x.com" 31 "" "")]) :=
  (c9_first_match_only
    [("adobe_0", Redis.createXdmRecord "adobe_0" 0 "Eve" "eve@x.com" 20 "" "")]
    "adobe_1" (Redis.createXdmRecord "adobe_1" 1 "Ann" "ann@x.com" 30 "" "")
    [("adobe_2", Redis.createXdmRecord "adobe_2" 2 "Ann B" "ann@x.com" 31 "" "")]
    0 "ann@x.com" ⟨none, none, none, none⟩
    (by decide) (by decide)).2.1

/-- C10: a freshly constructed file-backed store starts with an empty
in-memory index whatever the storage directory holds on disk: its count
is 0, `read_all` is empty, and every file id — including ids of files
stored there by a previous process — is unreachable: `read_by_id`
answers absence, `download` fails, and `delete` fails, each leaving the
filesystem untouched. -/
theorem c10_fresh_store_empty (path : String) (fs : FsStore.Fs)
    (fid dst : String) :
    FsStore.count (FsStore.init path) = 0 ∧
    FsStore.read_all (FsStore.init path) = [] ∧
    FsStore.read_by_id (FsStore.init path) fid = none ∧
    FsStore.download (FsStore.init path) fs fid dst = (false, fs) ∧
    FsStore.delete (FsStore.init path) fs fid = (false, FsStore.init path, fs) :=
  ⟨rfl, rfl, rfl, rfl, rfl⟩

namespace FsStore

theorem keys_update_metadata (st : SDFS) (fid : String)
    (md : List (String × String)) (t : Nat) :
    Dict.keys (update_metadata st fid md t).2.files = Dict.keys st.files := by
  cases h : Dict.dget st.files fid with
  | none => simp [update_metadata, h]
  | some info =>
    rw [update_metadata_found st fid info md t (by rw [read_by_id]; exact h)]
    show Dict.keys (Dict.dset st.files fid _) = _
    rw [Dict.keys_dset, if_pos (Dict.mem_keys_of_dget h)]

theorem delete_files_sublist (st : SDFS) (fs : Fs) (fid : String) :
    ((delete st fs fid).2.1.files).Sublist st.files := by
  cases h : Dict.dget st.files fid with
  | none =>
    have heq : delete st fs fid = (false, st, fs) := by simp [delete, h]
    rw [heq]
  | some info =>
    have heq : delete st fs fid =
        (true, SDFS.mk st.storage_path (Dict.ddel st.files fid),
         Dict.ddel fs info.stored_path) := by simp [delete, h]
    rw [heq]
    exact Dict.ddel_sublist st.files fid

end FsStore

namespace Lab3

theorem delete_user_sublist (c : Coll) (em : String) :
    (delete_user c em).2.Sublist c := by
  induction c with
  | nil => simp [delete_user]
  | cons u rest ih =>
    by_cases h : u.email = em
    · rw [delete_user]
      simp only [h, if_pos]
      exact List.sublist_cons_self u rest
    · rw [delete_user]
      simp only [h, if_neg, not_false_iff]
      exact List.Sublist.cons₂ u ih

end Lab3

/-- C7: against the claim that `read_all` returns the live records in
insertion (creation) order in every store state, the Redis-backed variant
returns them in whatever iteration order `hgetall` presents — with the
stored JSON records far over the listpack limits the hash is
hashtable-encoded, so that order carries no insertion-order guarantee.
The state below, presenting the record created at time 1 before the one
created at time 0, is therefore a legal hash state; `find_all` hands it
back unchanged, a sequence not sorted by creation time. -/
theorem c7_insertion_order_counterexample :
    Redis.find_all
      [("adobe_1", Redis.createXdmRecord "adobe_1" 1 "Bob" "bob@x.com" 25 "" ""),
       ("adobe_0", Redis.createXdmRecord "adobe_0" 0 "Ann" "ann@x.com" 30 "" "")] =
      [Redis.createXdmRecord "adobe_1" 1 "Bob" "bob@x.com" 25 "" "",
       Redis.createXdmRecord "adobe_0" 0 "Ann" "ann@x.com" 30 "" ""] ∧
    (Redis.createXdmRecord "adobe_1" 1 "Bob" "bob@x.com" 25 "" "").createdAt = 1 ∧
    (Redis.createXdmRecord "adobe_0" 0 "Ann" "ann@x.com" 30 "" "").createdAt = 0 ∧
    ¬ List.Sorted (fun a b : Redis.XdmRecord => a.createdAt ≤ b.createdAt)
      (Redis.find_all
        [("adobe_1", Redis.createXdmRecord "adobe_1" 1 "Bob" "bob@x.com" 25 "" ""),
         ("adobe_0", Redis.createXdmRecord "adobe_0" 0 "Ann" "ann@x.com" 30 "" "")]) :=
  ⟨rfl, rfl, rfl, by
    intro hsort
    have := List.rel_of_sorted_cons hsort _ (List.mem_singleton.mpr rfl)
    simp [Redis.createXdmRecord] at this⟩

/-- C7 (amended): only the file-backed variant's `read_all` is genuinely
insertion-ordered, because its index is a Python dict: a successful
create appends the new record at the end of `read_all`, `update_metadata`
rewrites the matched entry in place leaving the id sequence unchanged,
`delete` removes one entry keeping the relative order of the rest, and
`delete_all` leaves the empty sequence.  The Redis- and MongoDB-backed
variants return records in the backend's iteration order, which is not
guaranteed to be insertion order; their client code only preserves
whatever order the backend presents: `update_by_email` keeps the
presented id sequence, `delete_by_email` and `delete_user` keep the
relative presented order of the surviving records, and `delete_all`
leaves the empty sequence. -/
theorem c7_insertion_order_amended (st : FsStore.SDFS) (fs : FsStore.Fs)
    (fid src cont : String) (t3 : Nat) (md md2 : List (String × String))
    (fid2 : String) (t5 : Nat) (s : Redis.Store) (t2 : Nat) (em2 : String)
    (u : Redis.UpdateData) (c : Lab3.Coll) (em3 : String)
    (hsrc : Dict.dget fs src = some (FsStore.FileData.complete cont))
    (hfresh : fid ∉ Dict.keys st.files) :
    FsStore.read_all (FsStore.create st fs fid t3 src md true).2.1 =
      FsStore.read_all st ++
        [FsStore.FileInfo.mk fid (FsStore.baseName src)
          (st.storage_path ++ "/" ++ fid ++ "_" ++ FsStore.baseName src)
          cont.length t3 md none] ∧
    Dict.keys (FsStore.update_metadata st fid2 md2 t5).2.files =
      Dict.keys st.files ∧
    ((FsStore.delete st fs fid2).2.1.files).Sublist st.files ∧
    (FsStore.delete_all st fs).2.1.files = [] ∧
    Dict.keys (Redis.update_by_email s t2 em2 u).2 = Dict.keys s ∧
    (Redis.delete_by_email s em2).2.Sublist s ∧
    (Redis.delete_all s).2 = [] ∧
    (Lab3.delete_user c em3).2.Sublist c := by
  refine ⟨?_, FsStore.keys_update_metadata st fid2 md2 t5,
    FsStore.delete_files_sublist st fs fid2,
    FsStore.delete_all_empties st fs,
    Redis.keys_update_by_email s t2 em2 u,
    Redis.delete_by_email_sublist s em2, rfl,
    Lab3.delete_user_sublist c em3⟩
  rw [FsStore.create_ok st fs fid t3 src md cont hsrc]
  show (Dict.dset st.files fid _).map Prod.snd = _
  rw [Dict.dset_append_of_not_mem _ hfresh]
  simp [FsStore.read_all]

/-- C7 witness: a concrete create in the file-backed variant, appended at
the end of `read_all`. -/
theorem c7_insertion_order_witness :
    FsStore.read_all (FsStore.create (FsStore.init "store")
      [("src.txt", FsStore.FileData.complete "hello")]
      "adobe_9" 0 "src.txt" [] true).2.1 =
      FsStore.read_all (FsStore.init "store") ++
        [FsStore.FileInfo.mk "adobe_9" "src.txt" "store/adobe_9_src.txt"
          5 0 [] none] :=
  (c7_insertion_order_amended (FsStore.init "store")
    [("src.txt", FsStore.FileData.complete "hello")]
    "adobe_9" "src.txt" "hello" 0 [] [] "x" 0
    [] 0 "e@x.com" ⟨none, none, none, none⟩ [] "e@x.com"
    (by decide) (by decide)).1
